import Mathlib

/-!
Verification of the `CreditRSIEnv` trading environment from
`Untitled26.ipynb` (repository `Signals_for_trading`).

The Python environment is shallowly embedded: pandas Series become
`List` values, float arithmetic becomes exact rational arithmetic
(`ℚ`), NaN-carrying columns become `List (Option ℚ)` (`none` = NaN),
and operations that can raise (out-of-bounds `.iloc` access, too-short
data at construction) return `Option`/`Except`.  The process-global
`random` module used by `reset` is modelled as an explicit stream of
draws (`List ℕ`) threaded through the call.
-/

namespace CreditRSI

/-! ### RSI indicator, from `calculate_rsi` (lines 75-93)

`diff = data['price'].diff()` : first entry NaN, then successive
differences.  `gain = diff.mask(diff < 0, 0)` keeps NaN, zeroes the
negatives; `loss = -diff.mask(diff > 0, 0)` symmetrically.  The
exponentially weighted means use `com = window - 1` (so
`alpha = 1 / window`), pandas defaults `adjust=True` and
`ignore_na=False` (weights depend on absolute positions), and
`min_periods = window` (NaN until `window` non-NaN observations were
seen).  Finally `rs = avg_gain / avg_loss`,
`rsi = 100 - 100 / (1 + rs)`, infinities are replaced by NaN and every
NaN is filled with 50. -/

/-- `diff()` of the price column: index 0 is NaN, index `i > 0` is
`price[i] - price[i-1]`. -/
def priceDiff (ps : List ℚ) : List (Option ℚ) :=
  (List.range ps.length).map
    (fun i => if i = 0 then none else some (ps.getD i 0 - ps.getD (i - 1) 0))

/-- `gain = diff.mask(diff < 0, 0)` : NaN stays NaN, negative moves
become 0. -/
def gains (ps : List ℚ) : List (Option ℚ) :=
  (priceDiff ps).map (Option.map (fun d => if d < 0 then 0 else d))

/-- `loss = -diff.mask(diff > 0, 0)` : NaN stays NaN, positive moves
become 0, the rest is negated. -/
def losses (ps : List ℚ) : List (Option ℚ) :=
  (priceDiff ps).map (Option.map (fun d => if 0 < d then 0 else -d))

/-- The ewm smoothing factor: `com = window - 1`, so
`alpha = 1 / (1 + com) = 1 / window`. -/
def rsiAlpha (window : ℕ) : ℚ := 1 / (window : ℚ)

/-- Weight of observation `i` in the `adjust=True` ewm mean at
position `t` (absolute positions, `ignore_na=False`). -/
def ewmWeight (alpha : ℚ) (t i : ℕ) : ℚ := (1 - alpha) ^ (t - i)

/-- Numerator contribution of position `i` (0 for a NaN entry). -/
def ewmTermNum (alpha : ℚ) (xs : List (Option ℚ)) (t i : ℕ) : ℚ :=
  match xs.getD i none with
  | some v => ewmWeight alpha t i * v
  | none => 0

/-- Denominator contribution of position `i` (0 for a NaN entry). -/
def ewmTermDen (alpha : ℚ) (xs : List (Option ℚ)) (t i : ℕ) : ℚ :=
  match xs.getD i none with
  | some _ => ewmWeight alpha t i
  | none => 0

/-- Weighted sum of the non-NaN observations up to `t`. -/
def ewmNum (alpha : ℚ) (xs : List (Option ℚ)) (t : ℕ) : ℚ :=
  ((List.range (t + 1)).map (ewmTermNum alpha xs t)).sum

/-- Sum of the weights of the non-NaN observations up to `t`. -/
def ewmDen (alpha : ℚ) (xs : List (Option ℚ)) (t : ℕ) : ℚ :=
  ((List.range (t + 1)).map (ewmTermDen alpha xs t)).sum

/-- Number of non-NaN observations up to and including `t`. -/
def nnCount (xs : List (Option ℚ)) (t : ℕ) : ℕ :=
  ((List.range (t + 1)).filter (fun i => (xs.getD i none).isSome)).length

/-- `Series.ewm(com=window-1, min_periods=minp).mean()` at position
`t`: NaN (`none`) while fewer than `minp` observations were seen,
otherwise the weight-normalised mean. -/
def ewmMean (alpha : ℚ) (minp : ℕ) (xs : List (Option ℚ)) (t : ℕ) : Option ℚ :=
  if nnCount xs t < minp then none else some (ewmNum alpha xs t / ewmDen alpha xs t)

/-- `avg_gain` at position `t`. -/
def avgGain (ps : List ℚ) (window t : ℕ) : Option ℚ :=
  ewmMean (rsiAlpha window) window (gains ps) t

/-- `avg_loss` at position `t`. -/
def avgLoss (ps : List ℚ) (window t : ℕ) : Option ℚ :=
  ewmMean (rsiAlpha window) window (losses ps) t

/-- `rsi` at position `t`, reproducing the IEEE-float special cases of
`rs = avg_gain / avg_loss; rsi = 100 - 100/(1+rs)` followed by
`replace([inf, -inf], nan).fillna(50)`:
NaN in either average gives NaN, hence 50; `avg_loss = 0` gives
`rs = ±inf` (hence `rsi = 100`) unless `avg_gain = 0` too (0/0 = NaN,
hence 50); a vanishing denominator `1 + rs` would give an infinite
`rsi`, replaced by 50 (unreachable since `rs ≥ 0`). -/
def rsiAt (ps : List ℚ) (window t : ℕ) : ℚ :=
  match avgGain ps window t, avgLoss ps window t with
  | some g, some l =>
    if l = 0 then (if g = 0 then 50 else 100)
    else if 1 + g / l = 0 then 50
    else 100 - 100 / (1 + g / l)
  | _, _ => 50

/-- `calculate_rsi`: the full RSI column (total, every NaN already
filled with 50). -/
def calculateRsi (ps : List ℚ) (window : ℕ) : List ℚ :=
  (List.range ps.length).map (rsiAt ps window)

/-- `df['spread_change'] = df['price'].diff().fillna(0)`. -/
def spreadChangeList (ps : List ℚ) : List ℚ :=
  (List.range ps.length).map
    (fun i => if i = 0 then 0 else ps.getD i 0 - ps.getD (i - 1) 0)

/-! ### Environment data, from `CreditRSIEnv.__init__` (lines 104-174) -/

/-- The preprocessed dataframe plus the fixed configuration of a
`CreditRSIEnv` instance.  `dv01_per_unit` is the `fixed_cs01_per_unit`
constructor argument stored as `self.dv01_per_unit`. -/
structure EnvCfg where
  prices : List ℚ
  rsi : List ℚ
  spread_change : List ℚ
  window : ℕ
  initial_balance : ℚ
  transaction_cost_rate : ℚ
  dv01_per_unit : ℚ
  deriving DecidableEq, Repr

/-- The mutable per-episode state: `self.current_step`, `self.balance`
and `self.shares_held` (the append-only `episode_history` is never read
back by the logic and is not modelled). -/
structure EnvState where
  current_step : ℕ
  balance : ℚ
  shares_held : ℤ
  deriving DecidableEq, Repr

/-- Builds the dataframe columns exactly as `__init__` does (the RSI
and spread-change columns are total, so the subsequent `dropna` removes
no row). -/
def mkCfg (ps : List ℚ) (window : ℕ) (init tcr dv01 : ℚ) : EnvCfg :=
  ⟨ps, calculateRsi ps window, spreadChangeList ps, window, init, tcr, dv01⟩

/-- `CreditRSIEnv.__init__` as a fallible constructor.  In source
order: `calculate_rsi` (pandas rejects `com = window - 1 < 0`), the
no-op `dropna`, the emptiness check, and the
`len(self.df) < self.window + 2` check. -/
def initEnv (ps : List ℚ) (window : ℕ) (init tcr dv01 : ℚ) : Except String EnvCfg :=
  if window < 1 then Except.error "comass must satisfy: comass >= 0"
  else if ps.length = 0 then Except.error "DataFrame is empty after preprocessing"
  else if ps.length < window + 2 then Except.error "Not enough data points after preprocessing"
  else Except.ok (mkCfg ps window init tcr dv01)

/-- Whether construction succeeded. -/
def initOk (ps : List ℚ) (window : ℕ) (init tcr dv01 : ℚ) : Bool :=
  match initEnv ps window init tcr dv01 with
  | Except.ok _ => true
  | Except.error _ => false

/-- `self.max_steps = len(self.df) - 1`. -/
def maxSteps (cfg : EnvCfg) : ℕ := cfg.prices.length - 1

/-! ### Observations, from `CreditRSIEnv._get_obs` (lines 177-192) -/

/-- The observation vector
`[current_spread, rsi, shares_held, balance, spread_change]`. -/
structure Obs where
  price : ℚ
  rsi : ℚ
  shares_held : ℚ
  balance : ℚ
  spread_change : ℚ
  deriving DecidableEq, Repr

/-- The observation read at `current_step` (assuming the index is in
range). -/
def obsOf (cfg : EnvCfg) (s : EnvState) : Obs :=
  ⟨cfg.prices.getD s.current_step 0, cfg.rsi.getD s.current_step 0,
    (s.shares_held : ℚ), s.balance, cfg.spread_change.getD s.current_step 0⟩

/-- `_get_obs`: `self.df.iloc[self.current_step]` raises `IndexError`
(modelled as `none`) when `current_step` is past the last row. -/
def getObs (cfg : EnvCfg) (s : EnvState) : Option Obs :=
  if s.current_step < cfg.prices.length then some (obsOf cfg s) else none

/-! ### Stepping, from `CreditRSIEnv.step` (lines 195-285) -/

/-- `transaction_cost_per_unit = self.dv01_per_unit * self.transaction_cost_rate`. -/
def costPerUnit (cfg : EnvCfg) : ℚ := cfg.dv01_per_unit * cfg.transaction_cost_rate

/-- The transaction block of `step` (lines 234-254): given the balance
after mark-to-market and the current position, returns the new balance,
the new position and the `transaction_made` flag.
Action 1 (BuyProtection) requires `balance >= cost`; action 2
(SellProtection) closes a long unconditionally, otherwise shorts only
if `balance >= cost`; anything else changes nothing. -/
def applyAction (cfg : EnvCfg) (b : ℚ) (sh : ℤ) (a : ℤ) : ℚ × ℤ × Bool :=
  if a = 1 then
    (if costPerUnit cfg ≤ b then (b - costPerUnit cfg, sh + 1, true) else (b, sh, false))
  else if a = 2 then
    (if 0 < sh then (b - costPerUnit cfg, sh - 1, true)
     else if costPerUnit cfg ≤ b then (b - costPerUnit cfg, sh - 1, true)
     else (b, sh, false))
  else (b, sh, false)

/-- The mark-to-market P&L of one step taken from `s`:
`shares_held * (current_spread - previous_spread) * dv01_per_unit`. -/
def pnlOf (cfg : EnvCfg) (s : EnvState) : ℚ :=
  (s.shares_held : ℚ) *
    (cfg.prices.getD (s.current_step + 1) 0 - cfg.prices.getD s.current_step 0) *
    cfg.dv01_per_unit

/-- The post-step state on the normal (non end-of-data) path: index
advanced, mark-to-market applied, then the transaction block. -/
def stepState (cfg : EnvCfg) (s : EnvState) (a : ℤ) : EnvState :=
  ⟨s.current_step + 1,
    (applyAction cfg (s.balance + pnlOf cfg s) s.shares_held a).1,
    (applyAction cfg (s.balance + pnlOf cfg s) s.shares_held a).2.1⟩

/-- The `transaction_made` flag of one step taken from `s`. -/
def tradeMade (cfg : EnvCfg) (s : EnvState) (a : ℤ) : Bool :=
  (applyAction cfg (s.balance + pnlOf cfg s) s.shares_held a).2.2

/-- The extra penalty subtracted from the reward (lines 262-269):
`0.5 * initial_balance` on ruin (`balance < 0`), else
`0.1 * initial_balance` on drawdown
(`balance < 0.5 * initial_balance`), else nothing. -/
def penaltyOf (cfg : EnvCfg) (b : ℚ) : ℚ :=
  if b < 0 then cfg.initial_balance / 2
  else if b < cfg.initial_balance / 2 then cfg.initial_balance / 10
  else 0

/-- The reward of a normal step: the mark-to-market P&L minus the
penalty determined by the post-transaction balance. -/
def stepReward (cfg : EnvCfg) (s : EnvState) (a : ℤ) : ℚ :=
  pnlOf cfg s - penaltyOf cfg (stepState cfg s a).balance

/-- The `done` flag of a normal step: set exactly by the two penalty
branches. -/
def stepDone (cfg : EnvCfg) (s : EnvState) (a : ℤ) : Bool :=
  decide ((stepState cfg s a).balance < 0) ||
    decide ((stepState cfg s a).balance < cfg.initial_balance / 2)

/-- What a successful `step` call returns (besides `truncated = false`
and the `info` dictionary, which carry no state). -/
structure StepOut where
  obs : Obs
  reward : ℚ
  done : Bool
  deriving DecidableEq, Repr

/-- `CreditRSIEnv.step`.  Returns the state the instance is left in
(mutations happen before any exception) and, when no exception is
raised, the observation/reward/done triple.
Branches, in source order: reading `previous_spread` raises if
`current_step` is already out of range; after `current_step += 1`, the
`current_step > max_steps` branch tries to return the observation with
reward 0 and `done = true`, but `_get_obs` indexes row `current_step`
which is past the end, so this path raises `IndexError`; otherwise
mark-to-market, transaction block, penalties and the new observation. -/
def step (cfg : EnvCfg) (s : EnvState) (a : ℤ) : EnvState × Option StepOut :=
  if s.current_step < cfg.prices.length then
    if maxSteps cfg < s.current_step + 1 then
      (⟨s.current_step + 1, s.balance, s.shares_held⟩,
        match getObs cfg ⟨s.current_step + 1, s.balance, s.shares_held⟩ with
        | some obs => some ⟨obs, 0, true⟩
        | none => none)
    else
      (stepState cfg s a,
        match getObs cfg (stepState cfg s a) with
        | some obs => some ⟨obs, stepReward cfg s a, stepDone cfg s a⟩
        | none => none)
  else (s, none)

/-! ### Resetting, from `CreditRSIEnv.reset` (lines 287-309)

`super().reset(seed=seed)` seeds the gymnasium `np_random` generator,
which the method never uses: the start index comes from
`random.randint`, i.e. from the process-global `random` module,
modelled as an explicit stream of draws. -/

/-- `random.randint(lo, hi)` (inclusive bounds), with the draw
determined by the next value `v` of the global stream. -/
def randint (lo hi v : ℕ) : ℕ := lo + v % (hi + 1 - lo)

/-- `CreditRSIEnv.reset`: balance and position are restored, then the
start index is either `min_start_index = window + 1` (when the data is
too short for the random range) or a global-random draw from
`[min_start_index, max_steps - 100]`.  Returns the new state, the
first observation and the remaining global-random stream; the `seed`
argument only feeds the unused `np_random` generator. -/
def reset (cfg : EnvCfg) (seed : Option ℕ) (s : EnvState) (rng : List ℕ) :
    EnvState × Option Obs × List ℕ :=
  if ((maxSteps cfg : ℤ) - 100) < ((cfg.window + 1 : ℕ) : ℤ) then
    (⟨cfg.window + 1, cfg.initial_balance, 0⟩,
      getObs cfg ⟨cfg.window + 1, cfg.initial_balance, 0⟩, rng)
  else
    (⟨randint (cfg.window + 1) ((maxSteps cfg : ℤ) - 100).toNat (rng.headD 0),
        cfg.initial_balance, 0⟩,
      getObs cfg ⟨randint (cfg.window + 1) ((maxSteps cfg : ℤ) - 100).toNat (rng.headD 0),
        cfg.initial_balance, 0⟩,
      rng.tail)

/-! ### Multi-step runs -/

/-- Iterated `step`, keeping only the state (as the Python instance
does). -/
def runSteps (cfg : EnvCfg) : EnvState → List ℤ → EnvState
  | s, [] => s
  | s, a :: rest => runSteps cfg (step cfg s a).1 rest

/-- A step taken from `s` stays on the normal path (does not hit the
end-of-data branch). -/
def stepOk (cfg : EnvCfg) (s : EnvState) : Bool :=
  s.current_step + 1 ≤ maxSteps cfg

/-- Every step of the run stays on the normal path. -/
def okRun (cfg : EnvCfg) : EnvState → List ℤ → Bool
  | _, [] => true
  | s, a :: rest => stepOk cfg s && okRun cfg (step cfg s a).1 rest

/-- Sum of the per-step mark-to-market P&L over a run. -/
def pnlSum (cfg : EnvCfg) : EnvState → List ℤ → ℚ
  | _, [] => 0
  | s, a :: rest => pnlOf cfg s + pnlSum cfg (step cfg s a).1 rest

/-- Number of executed trades (units acquired or closed) over a run. -/
def tradeCount (cfg : EnvCfg) : EnvState → List ℤ → ℕ
  | _, [] => 0
  | s, a :: rest => (if tradeMade cfg s a then 1 else 0) + tradeCount cfg (step cfg s a).1 rest

/-! ### Concrete instances used for evaluations

A constant spread series of 20 points (too short for random start
sampling, so `reset` starts deterministically at `window + 1 = 2`), a
104-point constant series (long enough for random start sampling), and
a 6-point series with one sharp widening-then-tightening move.  All
use `window = 1`, `initial_balance = 10000`,
`transaction_cost_rate = 0.0005` and `fixed_cs01_per_unit = 100000`,
so the cost per traded unit is 50. -/

def flatCfg : EnvCfg := mkCfg (List.replicate 20 (1 : ℚ)) 1 10000 (1 / 2000) 100000

def longFlatCfg : EnvCfg := mkCfg (List.replicate 104 (1 : ℚ)) 1 10000 (1 / 2000) 100000

def dropCfg : EnvCfg := mkCfg ([1, 1, 1, 1, 19 / 20, 19 / 20] : List ℚ) 1 10000 (1 / 2000) 100000

/-! ### List-indexing helper lemmas -/

lemma getD_map_range (f : ℕ → ℚ) (n i : ℕ) (d : ℚ) (h : i < n) :
    ((List.range n).map f).getD i d = f i := by
  rw [List.getD_eq_getElem?_getD, List.getElem?_map, List.getElem?_range h]
  rfl

lemma getD_map_opt (l : List (Option ℚ)) (f : ℚ → ℚ) (i : ℕ) :
    (l.map (Option.map f)).getD i none = Option.map f (l.getD i none) := by
  rw [List.getD_eq_getElem?_getD, List.getD_eq_getElem?_getD, List.getElem?_map]
  cases l[i]? <;> rfl

/-! ### Nonnegativity of the smoothed gain and loss averages -/

lemma one_sub_rsiAlpha_nonneg (window : ℕ) (hw : 1 ≤ window) :
    0 ≤ 1 - rsiAlpha window := by
  unfold rsiAlpha
  have h1 : (1 : ℚ) ≤ (window : ℚ) := by exact_mod_cast hw
  have h2 : 1 / (window : ℚ) ≤ 1 := by
    rw [div_le_one (by linarith)]
    exact h1
  linarith

lemma ewmTermNum_nonneg (alpha : ℚ) (xs : List (Option ℚ)) (t i : ℕ)
    (halpha : 0 ≤ 1 - alpha) (hxs : ∀ j v, xs.getD j none = some v → 0 ≤ v) :
    0 ≤ ewmTermNum alpha xs t i := by
  unfold ewmTermNum ewmWeight
  cases h : xs.getD i none with
  | none => exact le_refl 0
  | some v => exact mul_nonneg (pow_nonneg halpha _) (hxs i v h)

lemma ewmTermDen_nonneg (alpha : ℚ) (xs : List (Option ℚ)) (t i : ℕ)
    (halpha : 0 ≤ 1 - alpha) : 0 ≤ ewmTermDen alpha xs t i := by
  unfold ewmTermDen ewmWeight
  cases h : xs.getD i none with
  | none => exact le_refl 0
  | some v => exact pow_nonneg halpha _

lemma ewmMean_nonneg (alpha : ℚ) (minp : ℕ) (xs : List (Option ℚ)) (t : ℕ) (q : ℚ)
    (halpha : 0 ≤ 1 - alpha) (hxs : ∀ j v, xs.getD j none = some v → 0 ≤ v)
    (h : ewmMean alpha minp xs t = some q) : 0 ≤ q := by
  unfold ewmMean at h
  split_ifs at h
  have hq : ewmNum alpha xs t / ewmDen alpha xs t = q := Option.some.inj h
  rw [← hq]
  refine div_nonneg ?_ ?_
  · refine List.sum_nonneg ?_
    intro x hx
    rcases List.mem_map.1 hx with ⟨i, _, rfl⟩
    exact ewmTermNum_nonneg alpha xs t i halpha hxs
  · refine List.sum_nonneg ?_
    intro x hx
    rcases List.mem_map.1 hx with ⟨i, _, rfl⟩
    exact ewmTermDen_nonneg alpha xs t i halpha

lemma gains_nonneg (ps : List ℚ) (j : ℕ) (v : ℚ)
    (h : (gains ps).getD j none = some v) : 0 ≤ v := by
  unfold gains at h
  rw [getD_map_opt] at h
  cases hd : (priceDiff ps).getD j none with
  | none => rw [hd] at h; cases h
  | some d =>
    rw [hd] at h
    have hv : (if d < 0 then (0 : ℚ) else d) = v := Option.some.inj h
    rw [← hv]
    split_ifs with hlt
    · exact le_refl 0
    · exact le_of_not_lt hlt

lemma losses_nonneg (ps : List ℚ) (j : ℕ) (v : ℚ)
    (h : (losses ps).getD j none = some v) : 0 ≤ v := by
  unfold losses at h
  rw [getD_map_opt] at h
  cases hd : (priceDiff ps).getD j none with
  | none => rw [hd] at h; cases h
  | some d =>
    rw [hd] at h
    have hv : (if 0 < d then (0 : ℚ) else -d) = v := Option.some.inj h
    rw [← hv]
    split_ifs with hlt
    · exact le_refl 0
    · simpa using le_of_not_lt hlt

/-! ### RSI stays within `[0, 100]` -/

lemma rsiAt_bounds (ps : List ℚ) (window t : ℕ) (hw : 1 ≤ window) :
    0 ≤ rsiAt ps window t ∧ rsiAt ps window t ≤ 100 := by
  have halpha := one_sub_rsiAlpha_nonneg window hw
  unfold rsiAt
  cases hg : avgGain ps window t with
  | none => norm_num
  | some g =>
    cases hl : avgLoss ps window t with
    | none => norm_num
    | some l =>
      have hg0 : 0 ≤ g :=
        ewmMean_nonneg (rsiAlpha window) window (gains ps) t g halpha (gains_nonneg ps) hg
      have hl0 : 0 ≤ l :=
        ewmMean_nonneg (rsiAlpha window) window (losses ps) t l halpha (losses_nonneg ps) hl
      dsimp only
      split_ifs with h1 h2 h3
      · norm_num
      · norm_num
      · norm_num
      · have hlpos : 0 < l := lt_of_le_of_ne hl0 (Ne.symm h1)
        have hq : 0 ≤ g / l := div_nonneg hg0 hl0
        have h1q : (1 : ℚ) ≤ 1 + g / l := by linarith
        constructor
        · have hle : (100 : ℚ) / (1 + g / l) ≤ 100 :=
            div_le_self (by norm_num) h1q
          linarith
        · have hnn : (0 : ℚ) ≤ 100 / (1 + g / l) :=
            div_nonneg (by norm_num) (by linarith)
          linarith

lemma calculateRsi_getD (ps : List ℚ) (window i : ℕ) (h : i < ps.length) :
    (calculateRsi ps window).getD i 0 = rsiAt ps window i := by
  unfold calculateRsi
  exact getD_map_range (rsiAt ps window) ps.length i 0 h

/-! ### Structural lemmas about `step`, `reset` and runs -/

lemma stepOk_le (cfg : EnvCfg) (s : EnvState) (h : stepOk cfg s = true) :
    s.current_step + 1 ≤ maxSteps cfg := by
  unfold stepOk at h
  exact of_decide_eq_true h

lemma stepOk_lt_len (cfg : EnvCfg) (s : EnvState) (h : stepOk cfg s = true) :
    s.current_step < cfg.prices.length := by
  have h1 := stepOk_le cfg s h
  unfold maxSteps at h1
  omega

lemma stepOk_succ_lt_len (cfg : EnvCfg) (s : EnvState) (h : stepOk cfg s = true) :
    s.current_step + 1 < cfg.prices.length := by
  have h1 := stepOk_le cfg s h
  unfold maxSteps at h1
  omega

/-- On the normal path the state `step` leaves behind is `stepState`. -/
lemma step_fst (cfg : EnvCfg) (s : EnvState) (a : ℤ) (h : stepOk cfg s = true) :
    (step cfg s a).1 = stepState cfg s a := by
  unfold step
  rw [if_pos (stepOk_lt_len cfg s h), if_neg (not_lt.2 (stepOk_le cfg s h))]

/-- On the normal path `step` returns the new observation, the reward
and the done flag. -/
lemma step_snd (cfg : EnvCfg) (s : EnvState) (a : ℤ) (h : stepOk cfg s = true) :
    (step cfg s a).2
      = some ⟨obsOf cfg (stepState cfg s a), stepReward cfg s a, stepDone cfg s a⟩ := by
  have hobs : getObs cfg (stepState cfg s a) = some (obsOf cfg (stepState cfg s a)) := by
    unfold getObs
    rw [if_pos]
    show s.current_step + 1 < cfg.prices.length
    exact stepOk_succ_lt_len cfg s h
  unfold step
  rw [if_pos (stepOk_lt_len cfg s h), if_neg (not_lt.2 (stepOk_le cfg s h))]
  rw [hobs]

/-- The transaction block charges `costPerUnit` exactly when it sets
`transaction_made`. -/
lemma applyAction_balance (cfg : EnvCfg) (b : ℚ) (sh : ℤ) (a : ℤ) :
    (applyAction cfg b sh a).1
      = b - (if (applyAction cfg b sh a).2.2 then costPerUnit cfg else 0) := by
  unfold applyAction
  split_ifs <;> simp_all

/-- The transaction block moves the position by at most one unit. -/
lemma applyAction_shares (cfg : EnvCfg) (b : ℚ) (sh : ℤ) (a : ℤ) :
    (applyAction cfg b sh a).2.1 = sh - 1 ∨ (applyAction cfg b sh a).2.1 = sh ∨
      (applyAction cfg b sh a).2.1 = sh + 1 := by
  unfold applyAction
  split_ifs <;> simp

/-- `reset` always restores the balance to `initial_balance`. -/
lemma reset_balance (cfg : EnvCfg) (seed : Option ℕ) (s : EnvState) (rng : List ℕ) :
    (reset cfg seed s rng).1.balance = cfg.initial_balance := by
  unfold reset
  split_ifs <;> rfl

/-- Balance bookkeeping over a run that stays on the normal path: the
final balance is the initial one plus the accumulated mark-to-market
P&L minus the cost of each executed trade. -/
theorem run_balance (cfg : EnvCfg) (acts : List ℤ) :
    ∀ s : EnvState, okRun cfg s acts = true →
      (runSteps cfg s acts).balance
        = s.balance + pnlSum cfg s acts
          - costPerUnit cfg * ((tradeCount cfg s acts : ℕ) : ℚ) := by
  induction acts with
  | nil =>
    intro s _
    simp [runSteps, pnlSum, tradeCount]
  | cons a rest ih =>
    intro s h
    have hsplit : stepOk cfg s = true ∧ okRun cfg (step cfg s a).1 rest = true := by
      simpa [okRun, Bool.and_eq_true] using h
    have hbal := ih (step cfg s a).1 hsplit.2
    rw [runSteps, pnlSum, tradeCount, hbal, step_fst cfg s a hsplit.1]
    have hb : (stepState cfg s a).balance
        = s.balance + pnlOf cfg s - (if tradeMade cfg s a then costPerUnit cfg else 0) := by
      show (applyAction cfg (s.balance + pnlOf cfg s) s.shares_held a).1 = _
      rw [applyAction_balance]
      rfl
    rw [hb]
    push_cast
    split_ifs <;> ring

lemma stepState_balance (cfg : EnvCfg) (s : EnvState) (a : ℤ) :
    (stepState cfg s a).balance
      = (applyAction cfg (s.balance + pnlOf cfg s) s.shares_held a).1 := rfl

lemma stepState_shares (cfg : EnvCfg) (s : EnvState) (a : ℤ) :
    (stepState cfg s a).shares_held
      = (applyAction cfg (s.balance + pnlOf cfg s) s.shares_held a).2.1 := rfl

/-- The transaction block for `SellProtection` (the `action == 2`
branch), with the two outer action tests discharged. -/
lemma applyAction_sell (cfg : EnvCfg) (b : ℚ) (sh : ℤ) :
    applyAction cfg b sh 2
      = if 0 < sh then (b - costPerUnit cfg, sh - 1, true)
        else if costPerUnit cfg ≤ b then (b - costPerUnit cfg, sh - 1, true)
        else (b, sh, false) := by
  unfold applyAction
  norm_num

/-! ### Evaluation lemmas for the concrete instances -/

lemma getD_replicate (n i : ℕ) (x d : ℚ) :
    (List.replicate n x).getD i d = if i < n then x else d := by
  rw [List.getD_eq_getElem?_getD, List.getElem?_replicate]
  split_ifs <;> rfl

lemma costPerUnit_flat : costPerUnit flatCfg = 50 := by
  norm_num [costPerUnit, flatCfg, mkCfg]

lemma costPerUnit_drop : costPerUnit dropCfg = 50 := by
  norm_num [costPerUnit, dropCfg, mkCfg]

lemma applyAction_buy_yes (cfg : EnvCfg) (b : ℚ) (sh : ℤ)
    (h : costPerUnit cfg ≤ b) :
    applyAction cfg b sh 1 = (b - costPerUnit cfg, sh + 1, true) := by
  unfold applyAction
  rw [if_pos rfl, if_pos h]

lemma applyAction_hold (cfg : EnvCfg) (b : ℚ) (sh : ℤ) :
    applyAction cfg b sh 0 = (b, sh, false) := by
  unfold applyAction
  norm_num

lemma stepState_eval (cfg : EnvCfg) (s : EnvState) (a : ℤ) (p0 p1 : ℚ)
    (hp0 : cfg.prices.getD s.current_step 0 = p0)
    (hp1 : cfg.prices.getD (s.current_step + 1) 0 = p1) :
    stepState cfg s a
      = ⟨s.current_step + 1,
          (applyAction cfg (s.balance + (s.shares_held : ℚ) * (p1 - p0) * cfg.dv01_per_unit)
            s.shares_held a).1,
          (applyAction cfg (s.balance + (s.shares_held : ℚ) * (p1 - p0) * cfg.dv01_per_unit)
            s.shares_held a).2.1⟩ := by
  unfold stepState pnlOf
  rw [hp0, hp1]

lemma buy_step_eval (cfg : EnvCfg) (s : EnvState) (p0 p1 : ℚ)
    (h : stepOk cfg s = true)
    (hp0 : cfg.prices.getD s.current_step 0 = p0)
    (hp1 : cfg.prices.getD (s.current_step + 1) 0 = p1)
    (hb : costPerUnit cfg ≤ s.balance + (s.shares_held : ℚ) * (p1 - p0) * cfg.dv01_per_unit) :
    (step cfg s 1).1
      = ⟨s.current_step + 1,
          s.balance + (s.shares_held : ℚ) * (p1 - p0) * cfg.dv01_per_unit - costPerUnit cfg,
          s.shares_held + 1⟩ := by
  rw [step_fst cfg s 1 h, stepState_eval cfg s 1 p0 p1 hp0 hp1,
    applyAction_buy_yes cfg _ _ hb]

lemma hold_step_eval (cfg : EnvCfg) (s : EnvState) (p0 p1 : ℚ)
    (h : stepOk cfg s = true)
    (hp0 : cfg.prices.getD s.current_step 0 = p0)
    (hp1 : cfg.prices.getD (s.current_step + 1) 0 = p1) :
    (step cfg s 0).1
      = ⟨s.current_step + 1,
          s.balance + (s.shares_held : ℚ) * (p1 - p0) * cfg.dv01_per_unit,
          s.shares_held⟩ := by
  rw [step_fst cfg s 0 h, stepState_eval cfg s 0 p0 p1 hp0 hp1, applyAction_hold]

lemma stepOk_flat (s : EnvState) (h : s.current_step + 1 ≤ 19) : stepOk flatCfg s = true := by
  unfold stepOk
  rw [decide_eq_true_eq, show maxSteps flatCfg = 19 from rfl]
  exact h

lemma stepOk_drop (s : EnvState) (h : s.current_step + 1 ≤ 5) : stepOk dropCfg s = true := by
  unfold stepOk
  rw [decide_eq_true_eq, show maxSteps dropCfg = 5 from rfl]
  exact h

lemma flat_prices_getD (i : ℕ) (h : i < 20) : flatCfg.prices.getD i 0 = 1 := by
  show (List.replicate 20 (1 : ℚ)).getD i 0 = 1
  rw [getD_replicate]
  exact if_pos h

/-- One affordable BuyProtection step on the constant series: the
index advances, 50 is charged, the position grows by one. -/
lemma flat_buy_step (i : ℕ) (b : ℚ) (k : ℤ) (hi : i + 1 ≤ 19) (hb : (50 : ℚ) ≤ b) :
    (step flatCfg ⟨i, b, k⟩ 1).1 = ⟨i + 1, b - 50, k + 1⟩ := by
  have hzb : b + ((k : ℤ) : ℚ) * (1 - 1) * flatCfg.dv01_per_unit = b := by ring
  rw [buy_step_eval flatCfg ⟨i, b, k⟩ 1 1 (stepOk_flat ⟨i, b, k⟩ hi)
    (flat_prices_getD i (by omega)) (flat_prices_getD (i + 1) (by omega))
    (by dsimp only; rw [costPerUnit_flat, hzb]; exact hb)]
  dsimp only
  rw [costPerUnit_flat, hzb]

lemma drop_prices_2 : dropCfg.prices.getD 2 0 = 1 := rfl

lemma drop_prices_3 : dropCfg.prices.getD 3 0 = 1 := rfl

lemma drop_prices_4 : dropCfg.prices.getD 4 0 = 19 / 20 := rfl

/-! ### The claims -/

/-- Claim C1: after `reset`, for any fixed series and any sequence of
valid actions whose steps all stay on the normal (non end-of-data)
path, the final balance equals `initial_balance` plus the summed
mark-to-market P&L (`shares_held * price_delta * dv01_per_unit` per
step) minus the per-unit transaction cost
(`dv01_per_unit * transaction_cost_rate`) times the number of executed
trades, exactly. -/
theorem balance_accounting (cfg : EnvCfg) (seed : Option ℕ) (s₀ : EnvState)
    (rng : List ℕ) (acts : List ℤ)
    (hvalid : ∀ a ∈ acts, a = 0 ∨ a = 1 ∨ a = 2)
    (hok : okRun cfg (reset cfg seed s₀ rng).1 acts = true) :
    (runSteps cfg (reset cfg seed s₀ rng).1 acts).balance
      = cfg.initial_balance + pnlSum cfg (reset cfg seed s₀ rng).1 acts
        - costPerUnit cfg * ((tradeCount cfg (reset cfg seed s₀ rng).1 acts : ℕ) : ℚ) := by
  have h := run_balance cfg acts (reset cfg seed s₀ rng).1 hok
  rw [reset_balance] at h
  exact h

/-- Witness for C1: on the 20-point constant series, starting from
`reset` (index 2, balance 10000) and playing BuyProtection then Hold,
the accounting identity holds (final balance 9950 = 10000 + 0 - 50·1). -/
theorem balance_accounting_witness :
    (runSteps flatCfg (reset flatCfg none ⟨0, 0, 0⟩ []).1 [1, 0]).balance
      = flatCfg.initial_balance + pnlSum flatCfg (reset flatCfg none ⟨0, 0, 0⟩ []).1 [1, 0]
        - costPerUnit flatCfg
          * ((tradeCount flatCfg (reset flatCfg none ⟨0, 0, 0⟩ []).1 [1, 0] : ℕ) : ℚ) :=
  balance_accounting flatCfg none ⟨0, 0, 0⟩ [] [1, 0] (by decide) (by decide)

/-- Claim C4: on a normal step, a resulting balance below zero sets
`done` and charges the ruin penalty `0.5 * initial_balance` (and never
the drawdown penalty); otherwise a balance below
`0.5 * initial_balance` sets `done` and charges the drawdown penalty
`0.1 * initial_balance`; a balance at or above the threshold charges
nothing and leaves `done` unset. -/
theorem ruin_drawdown_penalties (cfg : EnvCfg) (s : EnvState) (a : ℤ)
    (h : stepOk cfg s = true) (hpos : 0 < cfg.initial_balance) :
    (((stepState cfg s a).balance < 0 →
        Option.map StepOut.done (step cfg s a).2 = some true ∧
        Option.map StepOut.reward (step cfg s a).2
          = some (pnlOf cfg s - cfg.initial_balance / 2) ∧
        Option.map StepOut.reward (step cfg s a).2
          ≠ some (pnlOf cfg s - cfg.initial_balance / 10)) ∧
      (0 ≤ (stepState cfg s a).balance →
        (stepState cfg s a).balance < cfg.initial_balance / 2 →
        Option.map StepOut.done (step cfg s a).2 = some true ∧
        Option.map StepOut.reward (step cfg s a).2
          = some (pnlOf cfg s - cfg.initial_balance / 10)) ∧
      (cfg.initial_balance / 2 ≤ (stepState cfg s a).balance →
        Option.map StepOut.done (step cfg s a).2 = some false ∧
        Option.map StepOut.reward (step cfg s a).2 = some (pnlOf cfg s))) := by
  rw [step_snd cfg s a h]
  refine ⟨?_, ?_, ?_⟩
  · intro hb
    have hdone : stepDone cfg s a = true := by
      unfold stepDone
      simp [hb]
    have hpen : penaltyOf cfg (stepState cfg s a).balance = cfg.initial_balance / 2 := by
      unfold penaltyOf
      rw [if_pos hb]
    refine ⟨by simp [hdone], by simp [stepReward, hpen], ?_⟩
    intro heq
    simp only [Option.map_some', Option.some.injEq] at heq
    have heq2 : pnlOf cfg s - penaltyOf cfg (stepState cfg s a).balance
        = pnlOf cfg s - cfg.initial_balance / 10 := heq
    rw [hpen] at heq2
    linarith
  · intro h0 hb
    have hnb : ¬((stepState cfg s a).balance < 0) := not_lt.2 h0
    have hdone : stepDone cfg s a = true := by
      unfold stepDone
      simp [hb]
    have hpen : penaltyOf cfg (stepState cfg s a).balance = cfg.initial_balance / 10 := by
      unfold penaltyOf
      rw [if_neg hnb, if_pos hb]
    exact ⟨by simp [hdone], by simp [stepReward, hpen]⟩
  · intro hb
    have h2 : ¬((stepState cfg s a).balance < cfg.initial_balance / 2) := not_lt.2 hb
    have h0 : ¬((stepState cfg s a).balance < 0) := by
      push_neg
      linarith
    have hdone : stepDone cfg s a = false := by
      unfold stepDone
      simp [h0, h2]
    have hpen : penaltyOf cfg (stepState cfg s a).balance = 0 := by
      unfold penaltyOf
      rw [if_neg h0, if_neg h2]
    exact ⟨by simp [hdone], by simp [stepReward, hpen]⟩

/-- Witness for C4: a Hold step on the constant series from balance
10000 — the step succeeds and the three penalty cases are settled by
the theorem. -/
theorem ruin_drawdown_penalties_witness :
    (((stepState flatCfg ⟨2, 10000, 0⟩ 0).balance < 0 →
        Option.map StepOut.done (step flatCfg ⟨2, 10000, 0⟩ 0).2 = some true ∧
        Option.map StepOut.reward (step flatCfg ⟨2, 10000, 0⟩ 0).2
          = some (pnlOf flatCfg ⟨2, 10000, 0⟩ - flatCfg.initial_balance / 2) ∧
        Option.map StepOut.reward (step flatCfg ⟨2, 10000, 0⟩ 0).2
          ≠ some (pnlOf flatCfg ⟨2, 10000, 0⟩ - flatCfg.initial_balance / 10)) ∧
      (0 ≤ (stepState flatCfg ⟨2, 10000, 0⟩ 0).balance →
        (stepState flatCfg ⟨2, 10000, 0⟩ 0).balance < flatCfg.initial_balance / 2 →
        Option.map StepOut.done (step flatCfg ⟨2, 10000, 0⟩ 0).2 = some true ∧
        Option.map StepOut.reward (step flatCfg ⟨2, 10000, 0⟩ 0).2
          = some (pnlOf flatCfg ⟨2, 10000, 0⟩ - flatCfg.initial_balance / 10)) ∧
      (flatCfg.initial_balance / 2 ≤ (stepState flatCfg ⟨2, 10000, 0⟩ 0).balance →
        Option.map StepOut.done (step flatCfg ⟨2, 10000, 0⟩ 0).2 = some false ∧
        Option.map StepOut.reward (step flatCfg ⟨2, 10000, 0⟩ 0).2
          = some (pnlOf flatCfg ⟨2, 10000, 0⟩))) :=
  ruin_drawdown_penalties flatCfg ⟨2, 10000, 0⟩ 0 (by decide) (by decide)

/-- Claim C5: on a normal step, `SellProtection` with a positive
position always charges the cost and decrements the position (no
balance precondition); with a non-positive position it does so exactly
when the post-mark-to-market balance covers the cost, and otherwise
changes neither balance nor position beyond the mark-to-market. -/
theorem sell_protection_semantics (cfg : EnvCfg) (s : EnvState)
    (h : stepOk cfg s = true) :
    ((0 < s.shares_held →
        (step cfg s 2).1.balance = s.balance + pnlOf cfg s - costPerUnit cfg ∧
        (step cfg s 2).1.shares_held = s.shares_held - 1) ∧
      (s.shares_held ≤ 0 → costPerUnit cfg ≤ s.balance + pnlOf cfg s →
        (step cfg s 2).1.balance = s.balance + pnlOf cfg s - costPerUnit cfg ∧
        (step cfg s 2).1.shares_held = s.shares_held - 1) ∧
      (s.shares_held ≤ 0 → s.balance + pnlOf cfg s < costPerUnit cfg →
        (step cfg s 2).1.balance = s.balance + pnlOf cfg s ∧
        (step cfg s 2).1.shares_held = s.shares_held)) := by
  rw [step_fst cfg s 2 h]
  refine ⟨?_, ?_, ?_⟩
  · intro hsh
    rw [stepState_balance, stepState_shares, applyAction_sell, if_pos hsh]
    exact ⟨rfl, rfl⟩
  · intro hsh hb
    rw [stepState_balance, stepState_shares, applyAction_sell,
      if_neg (not_lt.2 hsh), if_pos hb]
    exact ⟨rfl, rfl⟩
  · intro hsh hb
    rw [stepState_balance, stepState_shares, applyAction_sell,
      if_neg (not_lt.2 hsh), if_neg (not_le.2 hb)]
    exact ⟨rfl, rfl⟩

/-- Witness for C5: a SellProtection step on the constant series from
a one-unit long position. -/
theorem sell_protection_semantics_witness :
    ((0 < (⟨2, 10000, 1⟩ : EnvState).shares_held →
        (step flatCfg ⟨2, 10000, 1⟩ 2).1.balance
          = (⟨2, 10000, 1⟩ : EnvState).balance + pnlOf flatCfg ⟨2, 10000, 1⟩
            - costPerUnit flatCfg ∧
        (step flatCfg ⟨2, 10000, 1⟩ 2).1.shares_held
          = (⟨2, 10000, 1⟩ : EnvState).shares_held - 1) ∧
      ((⟨2, 10000, 1⟩ : EnvState).shares_held ≤ 0 →
        costPerUnit flatCfg
          ≤ (⟨2, 10000, 1⟩ : EnvState).balance + pnlOf flatCfg ⟨2, 10000, 1⟩ →
        (step flatCfg ⟨2, 10000, 1⟩ 2).1.balance
          = (⟨2, 10000, 1⟩ : EnvState).balance + pnlOf flatCfg ⟨2, 10000, 1⟩
            - costPerUnit flatCfg ∧
        (step flatCfg ⟨2, 10000, 1⟩ 2).1.shares_held
          = (⟨2, 10000, 1⟩ : EnvState).shares_held - 1) ∧
      ((⟨2, 10000, 1⟩ : EnvState).shares_held ≤ 0 →
        (⟨2, 10000, 1⟩ : EnvState).balance + pnlOf flatCfg ⟨2, 10000, 1⟩
          < costPerUnit flatCfg →
        (step flatCfg ⟨2, 10000, 1⟩ 2).1.balance
          = (⟨2, 10000, 1⟩ : EnvState).balance + pnlOf flatCfg ⟨2, 10000, 1⟩ ∧
        (step flatCfg ⟨2, 10000, 1⟩ 2).1.shares_held
          = (⟨2, 10000, 1⟩ : EnvState).shares_held)) :=
  sell_protection_semantics flatCfg ⟨2, 10000, 1⟩ (by decide)

/-- Claim C2 (code bug): the claim says `shares_held` stays within
`[-10, 10]`, matching the observation-space bounds `_max_shares = 10`
that the constructor comments insist must encapsulate all reachable
values — but the transaction block never checks the position, only
affordability, so from `reset` eleven affordable BuyProtection steps on
the constant series drive `shares_held` to 11, outside the declared
interval. -/
theorem shares_exceed_max_units :
    okRun flatCfg (reset flatCfg none ⟨0, 0, 0⟩ []).1 (List.replicate 11 1) = true ∧
    (runSteps flatCfg (reset flatCfg none ⟨0, 0, 0⟩ []).1
      (List.replicate 11 1)).shares_held = 11 := by
  have hreset : (reset flatCfg none ⟨0, 0, 0⟩ []).1 = ⟨2, 10000, 0⟩ := by decide
  rw [hreset]
  refine ⟨by decide, ?_⟩
  have h1 : (step flatCfg ⟨2, 10000, 0⟩ 1).1 = ⟨3, 9950, 1⟩ := by
    rw [flat_buy_step 2 10000 0 (by omega) (by norm_num)]; norm_num
  have h2 : (step flatCfg ⟨3, 9950, 1⟩ 1).1 = ⟨4, 9900, 2⟩ := by
    rw [flat_buy_step 3 9950 1 (by omega) (by norm_num)]; norm_num
  have h3 : (step flatCfg ⟨4, 9900, 2⟩ 1).1 = ⟨5, 9850, 3⟩ := by
    rw [flat_buy_step 4 9900 2 (by omega) (by norm_num)]; norm_num
  have h4 : (step flatCfg ⟨5, 9850, 3⟩ 1).1 = ⟨6, 9800, 4⟩ := by
    rw [flat_buy_step 5 9850 3 (by omega) (by norm_num)]; norm_num
  have h5 : (step flatCfg ⟨6, 9800, 4⟩ 1).1 = ⟨7, 9750, 5⟩ := by
    rw [flat_buy_step 6 9800 4 (by omega) (by norm_num)]; norm_num
  have h6 : (step flatCfg ⟨7, 9750, 5⟩ 1).1 = ⟨8, 9700, 6⟩ := by
    rw [flat_buy_step 7 9750 5 (by omega) (by norm_num)]; norm_num
  have h7 : (step flatCfg ⟨8, 9700, 6⟩ 1).1 = ⟨9, 9650, 7⟩ := by
    rw [flat_buy_step 8 9700 6 (by omega) (by norm_num)]; norm_num
  have h8 : (step flatCfg ⟨9, 9650, 7⟩ 1).1 = ⟨10, 9600, 8⟩ := by
    rw [flat_buy_step 9 9650 7 (by omega) (by norm_num)]; norm_num
  have h9 : (step flatCfg ⟨10, 9600, 8⟩ 1).1 = ⟨11, 9550, 9⟩ := by
    rw [flat_buy_step 10 9600 8 (by omega) (by norm_num)]; norm_num
  have h10 : (step flatCfg ⟨11, 9550, 9⟩ 1).1 = ⟨12, 9500, 10⟩ := by
    rw [flat_buy_step 11 9550 9 (by omega) (by norm_num)]; norm_num
  have h11 : (step flatCfg ⟨12, 9500, 10⟩ 1).1 = ⟨13, 9450, 11⟩ := by
    rw [flat_buy_step 12 9500 10 (by omega) (by norm_num)]; norm_num
  show (runSteps flatCfg ⟨2, 10000, 0⟩ [1, 1, 1, 1, 1, 1, 1, 1, 1, 1, 1]).shares_held = 11
  simp only [runSteps]
  rw [h1, h2, h3, h4, h5, h6, h7, h8, h9, h10, h11]

/-- Claim C3 (code bug): with `current_step` on the last row, `step`
advances the index past the end and the end-of-data branch calls
`_get_obs`, whose `df.iloc[current_step]` read is out of bounds — the
intended `done = true, reward 0` return is never reached and the call
raises `IndexError` (modelled as `none`) for every action, although
balance and position are indeed left unchanged. -/
theorem step_at_last_row_raises :
    (step flatCfg ⟨19, 10000, 0⟩ 0).2 = none ∧
    (step flatCfg ⟨19, 10000, 0⟩ 1).2 = none ∧
    (step flatCfg ⟨19, 10000, 0⟩ 2).2 = none ∧
    (step flatCfg ⟨19, 10000, 0⟩ 0).1.balance = 10000 ∧
    (step flatCfg ⟨19, 10000, 0⟩ 0).1.shares_held = 0 := by
  exact ⟨by decide, by decide, by decide, by decide, by decide⟩

/-- First `reset(seed=7)` call on the 104-point series, drawing the
global-random value 0. -/
def resetFirst : EnvState × Option Obs × List ℕ :=
  reset longFlatCfg (some 7) ⟨0, 0, 0⟩ [0, 1]

/-- Second `reset(seed=7)` call, consuming the advanced global-random
stream left by the first call. -/
def resetSecond : EnvState × Option Obs × List ℕ :=
  reset longFlatCfg (some 7) resetFirst.1 resetFirst.2.2

/-- Counterexample to claim C6: two `reset` calls with the same seed 7
on the same series start at indices 2 and 3 — the start index comes
from the process-global `random` stream, which the seed argument does
not control. -/
theorem reset_same_seed_differs :
    resetFirst.1.current_step = 2 ∧ resetSecond.1.current_step = 3 ∧
    resetFirst.1.current_step ≠ resetSecond.1.current_step := by
  exact ⟨by decide, by decide, by decide⟩

/-- Claim C6 as amended: the result of `reset` is a function of the
configuration and of the global-random draw alone — any two calls that
consume the same draw yield the identical starting state and identical
first observation, whatever their seed arguments or prior states (and
the seed argument itself guarantees nothing). -/
theorem reset_determined_by_draw (cfg : EnvCfg) (seed1 seed2 : Option ℕ)
    (s1 s2 : EnvState) (v : ℕ) (rng1 rng2 : List ℕ) :
    (reset cfg seed1 s1 (v :: rng1)).1 = (reset cfg seed2 s2 (v :: rng2)).1 ∧
    (reset cfg seed1 s1 (v :: rng1)).2.1 = (reset cfg seed2 s2 (v :: rng2)).2.1 := by
  unfold reset
  split_ifs <;> exact ⟨rfl, rfl⟩

/-- Counterexample to claim C7: the out-of-set action 3 does not fail —
`step` returns an observation and mutates the state. -/
theorem invalid_action_no_error_and_mutates :
    (step flatCfg ⟨2, 10000, 0⟩ 3).2 ≠ none ∧
    (step flatCfg ⟨2, 10000, 0⟩ 3).1 ≠ (⟨2, 10000, 0⟩ : EnvState) := by
  exact ⟨by decide, by decide⟩

/-- Claim C7 as amended: an action outside `{0, 1, 2}` is not rejected;
the `if action == 1 / elif action == 2` chain silently treats it
exactly like Hold, so the step proceeds normally (index advance,
mark-to-market, penalties). -/
theorem invalid_action_acts_as_hold (cfg : EnvCfg) (s : EnvState) (a : ℤ)
    (h : ¬(a = 0 ∨ a = 1 ∨ a = 2)) : step cfg s a = step cfg s 0 := by
  have h1 : a ≠ 1 := fun hh => h (Or.inr (Or.inl hh))
  have h2 : a ≠ 2 := fun hh => h (Or.inr (Or.inr hh))
  have hAA : applyAction cfg (s.balance + pnlOf cfg s) s.shares_held a
      = applyAction cfg (s.balance + pnlOf cfg s) s.shares_held 0 := by
    unfold applyAction
    rw [if_neg h1, if_neg h2]
    norm_num
  have hSS : stepState cfg s a = stepState cfg s 0 := by
    unfold stepState
    rw [hAA]
  have hRW : stepReward cfg s a = stepReward cfg s 0 := by
    unfold stepReward
    rw [hSS]
  have hD : stepDone cfg s a = stepDone cfg s 0 := by
    unfold stepDone
    rw [hSS]
  unfold step
  rw [hSS, hRW, hD]

/-- Witness for the amended C7: action 3 behaves exactly like Hold. -/
theorem invalid_action_acts_as_hold_witness :
    step flatCfg ⟨2, 10000, 0⟩ 3 = step flatCfg ⟨2, 10000, 0⟩ 0 :=
  invalid_action_acts_as_hold flatCfg ⟨2, 10000, 0⟩ 3 (by decide)

/-- The state left behind by an episode of the 6-point series that ends
with the drawdown termination: reset to index 2, BuyProtection, then a
Hold during the spread tightening that costs 5000 and trips the
drawdown stop. -/
def doneEpisodeState : EnvState :=
  (step dropCfg (step dropCfg (reset dropCfg none ⟨0, 0, 0⟩ []).1 1).1 0).1

/-- Counterexample to claim C8: the step into `doneEpisodeState`
returns `done = true`, yet the instance stores no flag — a further
`step` call (without any `reset`) mutates the state again, advancing
`current_step` from 4 to 5. -/
theorem step_after_done_mutates :
    Option.map StepOut.done
      (step dropCfg (step dropCfg (reset dropCfg none ⟨0, 0, 0⟩ []).1 1).1 0).2
      = some true ∧
    doneEpisodeState.current_step = 4 ∧
    (step dropCfg doneEpisodeState 0).1.current_step = 5 := by
  have hr : (reset dropCfg none ⟨0, 0, 0⟩ []).1 = ⟨2, 10000, 0⟩ := by decide
  have hA : (step dropCfg ⟨2, 10000, 0⟩ 1).1 = ⟨3, 9950, 1⟩ := by
    rw [buy_step_eval dropCfg ⟨2, 10000, 0⟩ 1 1 (stepOk_drop ⟨2, 10000, 0⟩ (by decide))
      drop_prices_2 drop_prices_3
      (by dsimp only; rw [costPerUnit_drop]; norm_num)]
    dsimp only
    rw [costPerUnit_drop]
    norm_num
  have hbal : (stepState dropCfg ⟨3, 9950, 1⟩ 0).balance = 4950 := by
    rw [stepState_eval dropCfg ⟨3, 9950, 1⟩ 0 1 (19 / 20) drop_prices_3 drop_prices_4,
      applyAction_hold]
    dsimp only
    norm_num [dropCfg, mkCfg]
  have hBdone : stepDone dropCfg ⟨3, 9950, 1⟩ 0 = true := by
    unfold stepDone
    rw [hbal]
    simp only [Bool.or_eq_true, decide_eq_true_eq]
    right
    norm_num [dropCfg, mkCfg]
  refine ⟨?_, by decide, by decide⟩
  rw [hr, hA, step_snd dropCfg ⟨3, 9950, 1⟩ 0 (stepOk_drop ⟨3, 9950, 1⟩ (by decide))]
  simp only [Option.map_some']
  rw [hBdone]

/-- Claim C8 as amended: `done` is only a per-call return value; the
environment keeps no termination flag, and whenever `current_step` is
still in range a `step` call mutates the state (the index always
advances by one), regardless of any previously returned `done`. Only
`reset` restores balance and position. -/
theorem step_always_advances (cfg : EnvCfg) (s : EnvState) (a : ℤ)
    (h : s.current_step < cfg.prices.length) :
    (step cfg s a).1.current_step = s.current_step + 1 := by
  unfold step
  rw [if_pos h]
  split_ifs <;> rfl

/-- Witness for the amended C8: a Hold step from index 2 of the
constant series advances the index to 3. -/
theorem step_always_advances_witness :
    (step flatCfg ⟨2, 10000, 0⟩ 0).1.current_step
      = (⟨2, 10000, 0⟩ : EnvState).current_step + 1 :=
  step_always_advances flatCfg ⟨2, 10000, 0⟩ 0 (by decide)

/-- Claim C9: with a valid window (`com = window - 1 ≥ 0`),
construction succeeds exactly when the series has at least
`window + 2` rows — the RSI and spread-change columns are total (every
NaN already filled), so the `dropna` removes nothing and the
preprocessed length is the input length. -/
theorem init_length_check (ps : List ℚ) (window : ℕ) (init tcr dv01 : ℚ)
    (hw : 1 ≤ window) :
    initOk ps window init tcr dv01 = true ↔ window + 2 ≤ ps.length := by
  unfold initOk initEnv
  split_ifs with h1 h2 h3 <;> simp <;> omega

/-- Witness for C9: a 3-point series with window 1 is just long enough. -/
theorem init_length_check_witness :
    initOk ([1, 2, 3] : List ℚ) 1 10000 (1 / 2000) 100000 = true
      ↔ 1 + 2 ≤ ([1, 2, 3] : List ℚ).length :=
  init_length_check ([1, 2, 3] : List ℚ) 1 10000 (1 / 2000) 100000 (by decide)

/-- Counterexample to claim C10: the division-by-zero case with zero
average loss is not replaced by 50 — on the strictly rising series
`[1, 2, 3]` with window 1, position 1 has `avg_loss = 0` and
`avg_gain = 1`, so `rs = +inf` and `rsi = 100 - 100/(1+inf) = 100`,
which the inf/NaN replacement never touches. -/
theorem rsi_zero_avg_loss_gives_100 :
    avgLoss ([1, 2, 3] : List ℚ) 1 1 = some 0 ∧
    avgGain ([1, 2, 3] : List ℚ) 1 1 = some 1 ∧
    (calculateRsi ([1, 2, 3] : List ℚ) 1).getD 1 0 = 100 ∧
    (100 : ℚ) ≠ 50 := by
  have hd : priceDiff ([1, 2, 3] : List ℚ) = [none, some (2 - 1), some (3 - 2)] := rfl
  have hga : gains ([1, 2, 3] : List ℚ) = [none, some 1, some 1] := by
    unfold gains
    rw [hd]
    simp only [List.map_cons, List.map_nil, Option.map_some', Option.map_none']
    norm_num
  have hlo : losses ([1, 2, 3] : List ℚ) = [none, some 0, some 0] := by
    unfold losses
    rw [hd]
    simp only [List.map_cons, List.map_nil, Option.map_some', Option.map_none']
    norm_num
  have hcount1 : ¬(nnCount [none, some (1 : ℚ), some 1] 1 < 1) := by decide
  have hcount0 : ¬(nnCount [none, some (0 : ℚ), some 0] 1 < 1) := by decide
  have hnum1 : ewmNum (rsiAlpha 1) [none, some (1 : ℚ), some 1] 1
      = 0 + ((1 - rsiAlpha 1) ^ (1 - 1) * 1 + 0) := rfl
  have hden1 : ewmDen (rsiAlpha 1) [none, some (1 : ℚ), some 1] 1
      = 0 + ((1 - rsiAlpha 1) ^ (1 - 1) + 0) := rfl
  have hnum0 : ewmNum (rsiAlpha 1) [none, some (0 : ℚ), some 0] 1
      = 0 + ((1 - rsiAlpha 1) ^ (1 - 1) * 0 + 0) := rfl
  have hden0 : ewmDen (rsiAlpha 1) [none, some (0 : ℚ), some 0] 1
      = 0 + ((1 - rsiAlpha 1) ^ (1 - 1) + 0) := rfl
  have hAG : avgGain ([1, 2, 3] : List ℚ) 1 1 = some 1 := by
    unfold avgGain ewmMean
    rw [hga, if_neg hcount1, hnum1, hden1]
    norm_num [rsiAlpha]
  have hAL : avgLoss ([1, 2, 3] : List ℚ) 1 1 = some 0 := by
    unfold avgLoss ewmMean
    rw [hlo, if_neg hcount0, hnum0, hden0]
    norm_num [rsiAlpha]
  refine ⟨hAL, hAG, ?_, by norm_num⟩
  rw [calculateRsi_getD ([1, 2, 3] : List ℚ) 1 1 (by norm_num)]
  unfold rsiAt
  rw [hAG, hAL]
  norm_num

/-- Claim C10 as amended: every observation `_get_obs` produces over
the preprocessed dataframe carries an RSI value in `[0, 100]` — NaNs
(warm-up rows and the 0/0 case where both averages vanish) are filled
with 50, while a zero average loss with positive average gain yields
exactly 100; no observation exposes a NaN or an infinity. -/
theorem obs_rsi_in_range (ps : List ℚ) (window : ℕ) (init tcr dv01 : ℚ)
    (s : EnvState) (obs : Obs) (hw : 1 ≤ window)
    (h : getObs (mkCfg ps window init tcr dv01) s = some obs) :
    0 ≤ obs.rsi ∧ obs.rsi ≤ 100 := by
  unfold getObs at h
  split_ifs at h with hidx
  have hobs : obsOf (mkCfg ps window init tcr dv01) s = obs := Option.some.inj h
  have hrsi : obs.rsi = (calculateRsi ps window).getD s.current_step 0 := by
    rw [← hobs]
    rfl
  have hlen : s.current_step < ps.length := hidx
  rw [hrsi, calculateRsi_getD ps window s.current_step hlen]
  exact rsiAt_bounds ps window s.current_step hw

/-- Witness for the amended C10: the first observation of the constant
series carries the warm-up RSI 50, inside `[0, 100]`. -/
theorem obs_rsi_in_range_witness :
    0 ≤ (⟨1, 50, 0, 10000, 0⟩ : Obs).rsi ∧ (⟨1, 50, 0, 10000, 0⟩ : Obs).rsi ≤ 100 :=
  obs_rsi_in_range (List.replicate 20 (1 : ℚ)) 1 10000 (1 / 2000) 100000
    ⟨0, 10000, 0⟩ ⟨1, 50, 0, 10000, 0⟩ (by decide) (by decide)

end CreditRSI
